import Mathlib

/-!
Formal model of selected components of the PyTorch Lightning training
orchestration core: progress trackers and the training epoch loop's
`advance`/`done` control flow, the automatic-optimization `Closure` and
`ClosureResult`, the `Collective` group lifecycle, the FSDP strategy's
`setup_optimizer` validation, the LSF cluster-environment detection, the
`DataFetcher` prefetching generator, and the requirements-file
`_augment_requirement` policy.  Python exceptions are modelled with
`Except`, machine state with explicit structures, and iterators with
lists.
-/

set_option autoImplicit false

namespace PL

/-- Python exception values raised by the modelled code paths. -/
inductive PyErr where
  | runtimeError (msg : String)
  | valueError (msg : String)
  | misconfigurationException (msg : String)
  deriving DecidableEq, Repr

/-- Boolean success test for `Except` results (models "does not raise"). -/
def exOk {ε α : Type} : Except ε α → Bool
  | Except.ok _ => true
  | Except.error _ => false

/-! ## Collective (src/src/lightning_lite/plugins/collectives/collective.py)

A `Collective` owns at most one group handle, held in `_group`.  The group
type is abstract (`CollectibleGroup` in the source); the subclass hook
`new_group` is modelled by passing the group value it would return. -/

structure Collective (G : Type) where
  _group : Option G
  deriving DecidableEq, Repr

/-- Embedding of `Collective.create_group`: raises `RuntimeError` when a
group is already owned, otherwise stores the group produced by the
`new_group` subclass hook (passed here as `newGroup`) and returns the
updated instance. -/
def Collective.create_group {G : Type} (c : Collective G) (newGroup : G) :
    Except PyErr (Collective G) :=
  match c._group with
  | some _ => Except.error (PyErr.runtimeError "Collective already owns a group.")
  | none => Except.ok { _group := some newGroup }

/-- Embedding of `Collective.teardown`: raises `RuntimeError` when no group
is owned, otherwise destroys the group and clears `_group`. -/
def Collective.teardown {G : Type} (c : Collective G) :
    Except PyErr (Collective G) :=
  match c._group with
  | none => Except.error (PyErr.runtimeError "Collective does not own a group to destroy.")
  | some _ => Except.ok { _group := none }

/-! ## LSF environment detection
(src/pytorch_lightning/plugins/environments/lsf_environment.py) -/

/-- The environment variables listed in `LSFEnvironment.detect`. -/
def lsf_expected_env_vars : List String :=
  ["LSB_JOBID", "LSB_DJOB_RANKFILE", "JSM_NAMESPACE_LOCAL_RANK", "JSM_NAMESPACE_SIZE"]

/-- Embedding of `LSFEnvironment.detect`.  `env` is the set of variable
names present in `os.environ`.  The source computes
`flags = [v in os.environ for v in env_vars]` and returns `any(flags)`. -/
def LSFEnvironment.detect (env : List String) : Bool :=
  (lsf_expected_env_vars.map (fun v => env.contains v)).any id

/-! ## FSDP strategy setup_optimizer (src/src/lightning_lite/strategies/fsdp.py)

`optimizer.param_groups` is a list of dicts.  A dict value is either the
"params" entry (a list of parameters), a numeric hyperparameter, or - in
the model - possibly a bare parameter, so that `isinstance(x, FlatParameter)`
can be evaluated on every dict value exactly as the source does. -/

/-- A Python runtime value occurring in an optimizer param-group dict. -/
inductive PyValue where
  | param (isFlat : Bool)
  | list (xs : List PyValue)
  | num (n : Int)

/-- `isinstance(v, FlatParameter)`: true only for a parameter object that
is a flattened FSDP parameter; never true for a list or a number. -/
def isFlatParameter : PyValue → Bool
  | PyValue.param f => f
  | _ => false

/-- A torch optimizer as seen by `FSDPStrategy.setup_optimizer`: its list
of param-group dicts (association lists in insertion order). -/
structure Optimizer where
  param_groups : List (List (String × PyValue))

/-- Embedding of `FSDPStrategy.setup_optimizer`: rejects more than one
param group, then scans `optimizer.param_groups[0].values()` (the dict
values, in insertion order) with `isinstance(param, FlatParameter)`. -/
def FSDPStrategy.setup_optimizer (opt : Optimizer) : Except PyErr Optimizer :=
  if opt.param_groups.length > 1 then
    Except.error (PyErr.valueError "Optimizers used with FSDP do not support multiple param groups.")
  else
    match opt.param_groups.head? with
    | none => Except.error (PyErr.runtimeError "IndexError: list index out of range")
    | some g0 =>
      if (g0.map Prod.snd).any isFlatParameter then Except.ok opt
      else Except.error (PyErr.valueError "The optimizer does not seem to reference any flat FSDP parameters.")

/-- Modelled from the spec: `setup_optimizer(optimizer)` validates that
the optimizer references the flattened parameters produced by
`setup_module`.  A param group references them when its "params" entry
contains a flattened FSDP parameter. -/
def references_flat_params (g : List (String × PyValue)) : Bool :=
  match List.lookup "params" g with
  | some (PyValue.list ps) => ps.any isFlatParameter
  | some v => isFlatParameter v
  | none => false

/-! ## Progress tracking and _TrainingEpochLoop.advance
(src/src/pytorch_lightning/loops/epoch/training_epoch_loop.py)

The `Progress` counter class itself is not among the given sources; it is
modelled from the spec: plain counters ready/started/processed/completed,
each `increment_x` call adding one to the corresponding counter. -/

structure BatchProgress where
  ready : Nat
  started : Nat
  processed : Nat
  completed : Nat
  deriving DecidableEq, Repr

def BatchProgress.increment_ready : BatchProgress → BatchProgress
  | ⟨r, s, p, c⟩ => ⟨r + 1, s, p, c⟩

def BatchProgress.increment_started : BatchProgress → BatchProgress
  | ⟨r, s, p, c⟩ => ⟨r, s + 1, p, c⟩

def BatchProgress.increment_processed : BatchProgress → BatchProgress
  | ⟨r, s, p, c⟩ => ⟨r, s, p + 1, c⟩

def BatchProgress.increment_completed : BatchProgress → BatchProgress
  | ⟨r, s, p, c⟩ => ⟨r, s, p, c + 1⟩

/-- The invariant `ready ≥ started ≥ processed ≥ completed`. -/
def BatchProgress.ordered (p : BatchProgress) : Prop :=
  p.completed ≤ p.processed ∧ p.processed ≤ p.started ∧ p.started ≤ p.ready

/-- All four counters equal (the state after a fully completed unit). -/
def BatchProgress.allEqual (p : BatchProgress) : Prop :=
  p.ready = p.started ∧ p.started = p.processed ∧ p.processed = p.completed

instance (p : BatchProgress) : Decidable (BatchProgress.ordered p) :=
  inferInstanceAs (Decidable (_ ∧ _ ∧ _))

instance (p : BatchProgress) : Decidable (BatchProgress.allEqual p) :=
  inferInstanceAs (Decidable (_ ∧ _ ∧ _))

/-- The branch conditions of `_TrainingEpochLoop.advance` that determine
which `batch_progress` increments execute. -/
structure AdvancePath where
  restartingValCheck : Bool
  batchIsNone : Bool
  hookReturnsMinusOne : Bool
  deriving DecidableEq, Repr

/-- The successive values `batch_progress` takes at the pause points of one
`_TrainingEpochLoop.advance` call (head = entry value), in the statement
order of the source, together with whether `StopIteration` is raised:

* `restarting and self._should_check_val_fx()`: early return, no change;
* otherwise `increment_ready`; then
* `batch is None`: the hook block is skipped, then `increment_processed`
  and `increment_completed` run;
* hook response `== -1`: `increment_processed` then `raise StopIteration`;
* normal path: `increment_started`, the optimization loop,
  `increment_processed`, `increment_completed`. -/
def advanceTrace (p : BatchProgress) (path : AdvancePath) :
    List BatchProgress × Bool :=
  if path.restartingValCheck then ([p], false)
  else
    let p1 := p.increment_ready
    if path.batchIsNone then
      let p2 := p1.increment_processed
      let p3 := p2.increment_completed
      ([p, p1, p2, p3], false)
    else if path.hookReturnsMinusOne then
      let p2 := p1.increment_processed
      ([p, p1, p2], true)
    else
      let p2 := p1.increment_started
      let p3 := p2.increment_processed
      let p4 := p3.increment_completed
      ([p, p1, p2, p3, p4], false)

/-! ## _TrainingEpochLoop.done
(src/src/pytorch_lightning/loops/epoch/training_epoch_loop.py)

`_should_stop_early` and `_is_max_limit_reached` live in modules outside
the given sources; they enter the model as boolean facts of the state. -/

structure EpochLoopState where
  max_steps_reached : Bool
  num_ready_batches_reached : Bool
  restarting : Bool
  val_loop_done : Bool
  should_stop : Bool
  should_stop_early : Bool
  deriving DecidableEq, Repr

/-- Embedding of `_TrainingEpochLoop._is_training_done`. -/
def _is_training_done (s : EpochLoopState) : Bool :=
  s.max_steps_reached || s.num_ready_batches_reached

/-- Embedding of `_TrainingEpochLoop._is_validation_done`. -/
def _is_validation_done (s : EpochLoopState) : Bool :=
  !s.restarting || s.val_loop_done

/-- Embedding of the `_TrainingEpochLoop.done` property.  Returns the
boolean result together with whether the `min_epochs`/`min_steps` info
message is emitted on this evaluation. -/
def _TrainingEpochLoop.done (s : EpochLoopState) : Bool × Bool :=
  if _is_training_done s && _is_validation_done s then (true, false)
  else if s.should_stop then (s.should_stop_early, !s.should_stop_early)
  else (false, false)

/-! ## ClosureResult and Closure
(src/src/pytorch_lightning/loops/optimization/optimizer_loop.py)

A tensor is modelled by its rational value plus whether it is attached to
the autograd graph.  `detach` clears the attachment, `clone` copies the
tensor, division produces a fresh tensor (the source comments that the
in-place `x /= y` is deliberately avoided). -/

structure Tensor where
  val : ℚ
  attached : Bool
  deriving DecidableEq, Repr

def Tensor.detach (t : Tensor) : Tensor := { t with attached := false }

def Tensor.clone (t : Tensor) : Tensor := { val := t.val, attached := t.attached }

/-- `closure_loss / normalize` for an integer `normalize`: a new tensor on
the same graph holding the divided value. -/
def Tensor.divNat (t : Tensor) (k : Nat) : Tensor :=
  { val := t.val / (k : ℚ), attached := t.attached }

/-- The possible runtime types of a `training_step` return value:
a bare tensor, a dict (whose "loss" entry may be a tensor or `None`),
`None` itself, or any other object. -/
inductive StepOutput where
  | tensor (t : Tensor)
  | dict (entries : List (String × Option Tensor))
  | noneVal
  | other
  deriving DecidableEq, Repr

/-- `training_step_output.get("loss")`: `none` both when the key is absent
and when its stored value is `None`. -/
def dictGet (entries : List (String × Option Tensor)) (key : String) : Option Tensor :=
  (List.lookup key entries).join

structure ClosureResult where
  closure_loss : Option Tensor
  loss : Option Tensor
  extra : List (String × Option Tensor)
  deriving DecidableEq, Repr

/-- `ClosureResult` dataclass construction: `__post_init__` runs
`_clone_loss`, setting `loss` to `closure_loss.detach().clone()` exactly
once, at construction. -/
def ClosureResult.make (closure_loss : Option Tensor)
    (extra : List (String × Option Tensor)) : ClosureResult :=
  { closure_loss := closure_loss,
    loss := closure_loss.map (fun t => t.detach.clone),
    extra := extra }

/-- Embedding of `ClosureResult.from_training_step_output`.  The source
computes `(closure_loss, extra)` by the isinstance chain (dict first, then
`Tensor`, then the not-`None` error), divides a non-`None` loss by
`normalize`, and constructs the dataclass; here the common divide-and-
construct tail is inlined into each accepting branch. -/
def ClosureResult.from_training_step_output (o : StepOutput) (normalize : Nat) :
    Except PyErr ClosureResult :=
  match o with
  | StepOutput.dict entries =>
    match dictGet entries "loss" with
    | none => Except.error (PyErr.misconfigurationException
        "In automatic_optimization, when training_step returns a dict, the loss key needs to be present")
    | some t => Except.ok (ClosureResult.make (some (t.divNat normalize))
        (entries.filter (fun kv => kv.1 != "loss")))
  | StepOutput.tensor t => Except.ok (ClosureResult.make (some (t.divNat normalize)) [])
  | StepOutput.noneVal => Except.ok (ClosureResult.make none [])
  | StepOutput.other => Except.error (PyErr.misconfigurationException
      "In automatic optimization, training_step must return a Tensor, a dict, or None (where the step will be skipped)")

/-- A `Closure` at call time: the `ClosureResult` its `_step_fn` produces,
and whether `_backward_fn` / `_zero_grad_fn` were supplied. -/
structure Closure where
  step_result : ClosureResult
  has_backward_fn : Bool
  has_zero_grad_fn : Bool
  deriving DecidableEq, Repr

/-- Embedding of `Closure.closure`: returns the step output, whether the
`None`-loss warning fires, and the tensor handed to `_backward_fn` (if it
runs: only when the function is present and `closure_loss` is not `None`). -/
def Closure.closureRun (c : Closure) : ClosureResult × Bool × Option Tensor :=
  (c.step_result,
   c.step_result.closure_loss.isNone,
   if c.has_backward_fn && !c.step_result.closure_loss.isNone then
     c.step_result.closure_loss
   else none)

/-- Embedding of `Closure.__call__`: stores the closure result and returns
its `loss` field. -/
def Closure.call (c : Closure) : Option Tensor :=
  (Closure.closureRun c).1.loss

/-! ## DataFetcher (src/pytorch_lightning/utilities/fetching.py)

The dataloader iterator is modelled as the list of elements it has yet to
yield; `next()` is uncons, exhaustion is the empty list.  `self.batches`
is the prefetch buffer.  The base class `wait`/`on_fetch_start` hooks are
no-ops and `batch_to_device` is absent, so `on_fetch_end` just appends the
fetched batch. -/

/-- Embedding of `AbstractDataFetcher._prefetching(prefetch_batches)`:
fetch up to `k` elements into the buffer, stopping at `StopIteration`.
Returns the buffer and the remaining iterator. -/
def prefetching {α : Type} : Nat → List α → List α → List α × List α
  | 0, batches, rest => (batches, rest)
  | _ + 1, batches, [] => (batches, [])
  | k + 1, batches, x :: rest => prefetching k (batches ++ [x]) rest

/-- Embedding of `DataFetcher._consume_prefetched_batches` (with
`_yield_batch` called without an argument): pop the buffer front,
yielding `is_last = True` exactly when the buffer became empty. -/
def drainBatches {α : Type} : List α → List (α × Bool)
  | [] => []
  | x :: bs => (x, bs.isEmpty) :: drainBatches bs

/-- Embedding of the inner `while self.batches` loop of
`DataFetcher.fetching_function` followed by the drain: pop the front as
`yield_batch`, try to fetch one more element; on success yield
`(yield_batch, False)` and continue, on `StopIteration` reinsert
`yield_batch` and drain the buffer. -/
def fetchLoop {α : Type} : List α → List α → List (α × Bool)
  | [], _ => drainBatches []
  | yb :: bs, [] => drainBatches (yb :: bs)
  | yb :: bs, x :: rest => (yb, false) :: fetchLoop (bs ++ [x]) rest

/-- Embedding of `DataFetcher.fetching_function` for one full consumption
of the iterator `xs`.  `prefetch_internal` is `self.prefetch_batches`
(already incremented by one in `AbstractDataFetcher.__init__`).  The outer
`while not self.done` loop runs its body once: `_consume_prefetched_batches`
sets `done = True` before the loop condition is re-checked. -/
def DataFetcher.fetching_function {α : Type} (prefetch_internal : Nat)
    (xs : List α) : List (α × Bool) :=
  let pr := prefetching prefetch_internal ([] : List α) xs
  fetchLoop pr.1 pr.2

/-- Iterating a `DataFetcher` constructed with `prefetch_batches = p` over
the iterable `xs`: `__init__` stores `p + 1`, `__iter__` resets state and
runs the fetching generator. -/
def DataFetcher.iterate {α : Type} (p : Nat) (xs : List α) : List (α × Bool) :=
  DataFetcher.fetching_function (p + 1) xs

/-- Specification-side description of the expected yields: every element
in order paired with `False`, except the last which is paired with
`True`. -/
def tagLast {α : Type} : List α → List (α × Bool)
  | [] => []
  | [x] => [(x, true)]
  | x :: y :: xs => (x, false) :: tagLast (y :: xs)

/-! ## _augment_requirement (src/.actions/setup_tools.py)

Strings are modelled as `List Char`.  The embedding fixes
`comment_char = '#'` and `unfreeze = "all"` (the configuration the claim
invokes); under `unfreeze = "all"` the `parse_requirements`/`LooseVersion`
major-version branch is dead (`ver_major is None`), so only the comment
split, the emptiness/`http` guards, the `re.sub` removal of upper bounds
and the strict-comment reattachment remain. -/

/-- Python `str.strip` whitespace set. -/
def pySpace (c : Char) : Bool :=
  c == ' ' || c == '\t' || c == '\n' || c == '\r' || c == '\x0b' || c == '\x0c'

/-- Python `str.strip()`. -/
def pyStrip (s : List Char) : List Char :=
  ((s.dropWhile pySpace).reverse.dropWhile pySpace).reverse

/-- Python substring test `pat in s`. -/
def containsSeq (s pat : List Char) : Bool :=
  (List.range (s.length + 1)).any (fun i => pat.isPrefixOf (s.drop i))

/-- A character matched by the regex class `[\d\.\*]`. -/
def isVerChar (c : Char) : Bool :=
  c.isDigit || c == '.' || c == '*'

/-- One leftmost match of the regex `,? *<=? *[\d\.\*]+` starting at the
head of `s`: returns the remainder after the match, or `none` when the
head does not start a match.  Each greedy piece is matched maximally; for
this pattern piecewise-greedy matching coincides with the regex engine
because adjacent pieces draw from disjoint character sets. -/
def matchVerPat (s : List Char) : Option (List Char) :=
  let s1 := match s with
    | ',' :: r => r
    | _ => s
  let s2 := s1.dropWhile (fun c => c == ' ')
  match s2 with
  | '<' :: r =>
    let s3 := match r with
      | '=' :: r2 => r2
      | _ => r
    let s4 := s3.dropWhile (fun c => c == ' ')
    let matched := s4.takeWhile isVerChar
    if matched.isEmpty then none else some (s4.dropWhile isVerChar)
  | _ => none

/-- Fuel-driven scan implementing `re.sub(pat, "", s)` for the pattern of
`matchVerPat`: at each position either consume a leftmost match (dropping
it) or keep one character and continue.  Each step consumes at least one
input character, so `fuel = s.length` suffices. -/
def regexSubAux : Nat → List Char → List Char
  | 0, s => s
  | _ + 1, [] => []
  | fuel + 1, c :: cs =>
    match matchVerPat (c :: cs) with
    | some rest => regexSubAux fuel rest
    | none => c :: regexSubAux fuel cs

/-- `re.sub(r",? *<=? *[\d\.\*]+", "", req)`. -/
def removeUpperBounds (s : List Char) : List Char :=
  regexSubAux s.length s

/-- The `"  # strict"` tail reattached to strict requirements. -/
def strictSuffix : List Char := String.toList "  # strict"

/-- Embedding of `_augment_requirement(ln, comment_char="#",
unfreeze="all")`: split off the comment at the first `'#'`, record whether
it mentions `strict`, strip the requirement, return `""` for empty or
directly-installed (http) requirements, drop upper version bounds unless
the line is strict, and reattach the strict marker. -/
def _augment_requirement (ln : List Char) : List Char :=
  let pre := ln.takeWhile (fun c => c != '#')
  let comment := ln.dropWhile (fun c => c != '#')
  let is_strict := !comment.isEmpty && containsSeq comment (String.toList "strict")
  let req := pyStrip pre
  if req.isEmpty || (String.toList "http").isPrefixOf req
      || containsSeq req (String.toList "@http") then
    []
  else
    let req2 := if req.contains '<' && !is_strict then pyStrip (removeUpperBounds req) else req
    if is_strict then req2 ++ strictSuffix else req2

/-! ## Theorems -/

/-- C1 counterexample: starting from equal counters, the `batch is None`
path of `advance` ends with `batch_progress = (ready 1, started 0,
processed 1, completed 1)` and the `-1` hook path ends with
`(1, 0, 1, 0)`: on both paths `started` is skipped, so the pause-point
state violates `started ≥ processed` — the invariant does not hold on
every control path as claimed. -/
theorem advance_progress_invariant_cex :
    (advanceTrace ⟨0, 0, 0, 0⟩ ⟨false, true, false⟩).1.getLast? = some ⟨1, 0, 1, 1⟩
    ∧ ¬ BatchProgress.ordered ⟨1, 0, 1, 1⟩
    ∧ (advanceTrace ⟨0, 0, 0, 0⟩ ⟨false, false, true⟩).1.getLast? = some ⟨1, 0, 1, 0⟩
    ∧ ¬ BatchProgress.ordered ⟨1, 0, 1, 0⟩ := by
  refine ⟨by decide, by decide, by decide, by decide⟩

/-- C1 (amended): on the normal control path of
`_TrainingEpochLoop.advance` (batch not `None`, `on_train_batch_start`
hook not returning `-1`) every pause point preserves
`ready ≥ started ≥ processed ≥ completed`, and a full batch cycle entered
with all counters equal leaves all four equal (each advanced by one).  On
the `None`-batch and `-1`-hook paths only the weaker chain
`ready ≥ processed ≥ completed` is maintained, because `increment_started`
is skipped there. -/
theorem advance_progress_invariant (p : BatchProgress) (path : AdvancePath) :
    (p.ordered → path.batchIsNone = false → path.hookReturnsMinusOne = false →
      ∀ q ∈ (advanceTrace p path).1, q.ordered)
    ∧ (p.allEqual → path.restartingValCheck = false → path.batchIsNone = false →
      path.hookReturnsMinusOne = false →
      (advanceTrace p path).1.getLast? =
          some ⟨p.ready + 1, p.started + 1, p.processed + 1, p.completed + 1⟩
        ∧ BatchProgress.allEqual ⟨p.ready + 1, p.started + 1, p.processed + 1, p.completed + 1⟩)
    ∧ (p.ordered → ∀ q ∈ (advanceTrace p path).1, q.completed ≤ q.processed ∧ q.processed ≤ q.ready) := by
  obtain ⟨r, s, pr, c⟩ := p
  obtain ⟨rv, bn, hm⟩ := path
  refine ⟨?_, ?_, ?_⟩
  · rintro hord rfl rfl q hq
    cases rv <;>
      simp only [advanceTrace, BatchProgress.increment_ready, BatchProgress.increment_started,
        BatchProgress.increment_processed, BatchProgress.increment_completed, if_true, if_false,
        Bool.false_eq_true, List.mem_cons, List.mem_singleton, List.not_mem_nil, or_false,
        ite_true, ite_false] at hq <;>
      simp only [BatchProgress.ordered] at hord ⊢ <;>
      rcases hq with rfl | rfl | rfl | rfl | rfl <;> simp_all <;> omega
  · rintro heq rfl rfl rfl
    simp only [BatchProgress.allEqual] at heq ⊢
    simp only [advanceTrace, BatchProgress.increment_ready, BatchProgress.increment_started,
      BatchProgress.increment_processed, BatchProgress.increment_completed, Bool.false_eq_true,
      ite_false, List.getLast?]
    refine ⟨by simp, by omega, by omega⟩
  · rintro hord q hq
    cases rv <;> cases bn <;> cases hm <;>
      simp only [advanceTrace, BatchProgress.increment_ready, BatchProgress.increment_started,
        BatchProgress.increment_processed, BatchProgress.increment_completed,
        Bool.false_eq_true, Bool.true_eq_false, ite_true, ite_false, if_true, if_false,
        List.mem_cons, List.mem_singleton, List.not_mem_nil, or_false] at hq <;>
      simp only [BatchProgress.ordered] at hord <;>
      (try rcases hq with rfl | rfl | rfl | rfl | rfl) <;>
      refine ⟨by simp; omega, by simp; omega⟩

/-- C1 witness: applying the invariant theorem to the zero progress state
on the normal path shows the intermediate pause state `(1, 1, 0, 0)`
satisfies the chain. -/
theorem advance_progress_invariant_witness :
    BatchProgress.ordered ⟨1, 1, 0, 0⟩ :=
  (advance_progress_invariant ⟨0, 0, 0, 0⟩ ⟨false, false, false⟩).1
    (by refine ⟨by decide, by decide, by decide⟩) rfl rfl ⟨1, 1, 0, 0⟩ (by decide)

/-- C2 (code bug): an optimizer whose single param group holds the
flattened FSDP parameters in its "params" entry is nevertheless rejected:
`setup_optimizer` scans `param_groups[0].values()` — the dict values (the
params *list* object and the numeric hyperparameters) — rather than the
parameters inside `param_groups[0]["params"]`, so the `isinstance(param,
FlatParameter)` test never succeeds and the `ValueError` claiming the
optimizer references no flat parameters is raised even though
`references_flat_params` (the validation the spec describes) holds. -/
theorem fsdp_setup_optimizer_bug :
    FSDPStrategy.setup_optimizer
        ⟨[[("params", PyValue.list [PyValue.param true]), ("lr", PyValue.num 1)]]⟩
      = Except.error
          (PyErr.valueError "The optimizer does not seem to reference any flat FSDP parameters.")
    ∧ references_flat_params
        [("params", PyValue.list [PyValue.param true]), ("lr", PyValue.num 1)] = true :=
  ⟨rfl, rfl⟩

/-- C2 supporting fact: for every single-group optimizer obeying the torch
invariant that no param-group dict value is itself a bare flattened
parameter (the parameters live inside the "params" list), `setup_optimizer`
raises the flat-parameter `ValueError` — it can never return. -/
theorem fsdp_setup_optimizer_always_raises (g : List (String × PyValue))
    (h : ∀ v ∈ g.map Prod.snd, isFlatParameter v = false) :
    FSDPStrategy.setup_optimizer ⟨[g]⟩
      = Except.error
          (PyErr.valueError "The optimizer does not seem to reference any flat FSDP parameters.") := by
  simp only [FSDPStrategy.setup_optimizer, List.length_cons, List.length_nil, List.head?]
  rw [if_neg (by omega)]
  rw [if_neg]
  simp only [List.any_eq_true, not_exists, not_and]
  intro v hv
  simp [h v hv]

/-- C5: a `Collective` owns at most one group: `create_group` succeeds
exactly when no group is owned (and then stores the new group, so a second
`create_group` without an intervening `teardown` raises `RuntimeError`
while `teardown` succeeds and clears the group); `teardown` succeeds
exactly when a group is owned (and a second `teardown` raises). -/
theorem collective_single_group (G : Type) (c : Collective G) (g g2 : G) :
    (exOk (c.create_group g) = true ↔ c._group = none)
    ∧ (exOk c.teardown = true ↔ c._group ≠ none)
    ∧ (∀ c2, c.create_group g = Except.ok c2 →
        c2._group = some g
        ∧ (∃ m, c2.create_group g2 = Except.error (PyErr.runtimeError m))
        ∧ (∃ c3, c2.teardown = Except.ok c3 ∧ c3._group = none))
    ∧ (∀ c2, c.teardown = Except.ok c2 →
        c2._group = none ∧ ∃ m, c2.teardown = Except.error (PyErr.runtimeError m)) := by
  obtain ⟨gr⟩ := c
  cases gr <;>
    simp [Collective.create_group, Collective.teardown, exOk]

/-- C5 witness: a collective holding a group tears down successfully. -/
theorem collective_single_group_witness :
    exOk (Collective.teardown (G := Unit) ⟨some ()⟩) = true :=
  (collective_single_group Unit ⟨some ()⟩ () ()).2.1.mpr (by simp)

/-- C7 counterexample: in a state where the maximum-step limit is reached,
the stop flag is set and the minimums are not satisfied
(`should_stop_early = false`), `done` returns `True` without emitting the
min-epochs/min-steps message — the claim's unconditional "done returns
False" fails when training is already done. -/
theorem epoch_done_cex :
    (⟨true, false, false, false, true, false⟩ : EpochLoopState).should_stop = true
    ∧ (⟨true, false, false, false, true, false⟩ : EpochLoopState).should_stop_early = false
    ∧ _TrainingEpochLoop.done ⟨true, false, false, false, true, false⟩ = (true, false) := by
  refine ⟨rfl, rfl, rfl⟩

/-- C7 (amended): provided the epoch loop is not already done by its
training/validation limits, a set stop flag with unmet minimums makes
`done` return `False` and emits the min-epochs/min-steps info message (so
training continues); a set stop flag with the minimums satisfied makes
`done` return `True`. -/
theorem epoch_done_honors_minimums (s : EpochLoopState) :
    (s.should_stop = true → s.should_stop_early = false →
      (_is_training_done s && _is_validation_done s) = false →
      _TrainingEpochLoop.done s = (false, true))
    ∧ (s.should_stop = true → s.should_stop_early = true →
      (_TrainingEpochLoop.done s).1 = true) := by
  obtain ⟨a, b, c, d, e, f⟩ := s
  revert a b c d e f
  decide

/-- C7 witness: with no limit reached, stop flag set and minimums unmet,
`done` is `(False, warning emitted)`. -/
theorem epoch_done_honors_minimums_witness :
    _TrainingEpochLoop.done ⟨false, false, false, false, true, false⟩ = (false, true) :=
  (epoch_done_honors_minimums ⟨false, false, false, false, true, false⟩).1 rfl rfl rfl

/-- C8 (code bug): `LSFEnvironment.detect` returns `any(flags)`, so an
environment containing only `LSB_JOBID` — with the other three expected
variables absent — is still reported as an LSF environment, contradicting
the claim that absence of any expected variable yields a negative
detection (the intended check is that all expected variables are
present). -/
theorem lsf_detect_any_bug :
    LSFEnvironment.detect ["LSB_JOBID"] = true
    ∧ (["LSB_JOBID"] : List String).contains "LSB_DJOB_RANKFILE" = false
    ∧ (["LSB_JOBID"] : List String).contains "JSM_NAMESPACE_LOCAL_RANK" = false
    ∧ (["LSB_JOBID"] : List String).contains "JSM_NAMESPACE_SIZE" = false := by
  refine ⟨by decide, by decide, by decide, by decide⟩

/-- C3: `from_training_step_output` succeeds exactly on a bare tensor,
`None`, or a mapping whose "loss" entry holds a non-`None` tensor; every
raised error is a `MisconfigurationException` (covering both the
missing/`None` "loss" entry and any other return type). -/
theorem from_training_step_output_accepts (o : StepOutput) (k : Nat) :
    (exOk (ClosureResult.from_training_step_output o k) = true ↔
      ((∃ t, o = StepOutput.tensor t) ∨ o = StepOutput.noneVal
        ∨ (∃ entries t, o = StepOutput.dict entries ∧ dictGet entries "loss" = some t)))
    ∧ (∀ e, ClosureResult.from_training_step_output o k = Except.error e →
        ∃ m, e = PyErr.misconfigurationException m) := by
  cases o with
  | tensor t => simp [ClosureResult.from_training_step_output, exOk]
  | noneVal => simp [ClosureResult.from_training_step_output, exOk]
  | other => simp [ClosureResult.from_training_step_output, exOk]
  | dict entries =>
    cases hd : dictGet entries "loss" with
    | none => simp [ClosureResult.from_training_step_output, hd, exOk]
    | some t => simp [ClosureResult.from_training_step_output, hd, exOk]

/-- C3 witness: a `None` training-step output is accepted (the batch is
skipped but a `ClosureResult` is still constructed). -/
theorem from_training_step_output_accepts_witness :
    exOk (ClosureResult.from_training_step_output StepOutput.noneVal 1) = true :=
  (from_training_step_output_accepts StepOutput.noneVal 1).1.mpr (Or.inr (Or.inl rfl))

/-- C4: for every loss tensor and accumulation factor `k ≥ 1`, the
`ClosureResult` built from a bare-tensor or dict training-step output
carries `closure_loss = loss / k` (a fresh tensor — `divNat` leaves its
argument untouched, mirroring the deliberate avoidance of the in-place
division), and for `k = 1` the loss tensor is unchanged. -/
theorem closure_loss_normalized (t : Tensor) (k : Nat) (hk : 1 ≤ k) :
    ClosureResult.from_training_step_output (StepOutput.tensor t) k
        = Except.ok (ClosureResult.make (some (t.divNat k)) [])
    ∧ (∀ entries, dictGet entries "loss" = some t →
        ClosureResult.from_training_step_output (StepOutput.dict entries) k
          = Except.ok (ClosureResult.make (some (t.divNat k))
              (entries.filter (fun kv => kv.1 != "loss"))))
    ∧ (t.divNat k).val = t.val / (k : ℚ)
    ∧ (t.divNat k).attached = t.attached
    ∧ (k = 1 → t.divNat k = t) := by
  refine ⟨rfl, ?_, rfl, rfl, ?_⟩
  · intro entries h
    simp [ClosureResult.from_training_step_output, h]
  · rintro rfl
    obtain ⟨v, a⟩ := t
    simp [Tensor.divNat]

/-- C4 witness: a loss of value 3 with accumulation factor 2 produces
`closure_loss = 3 / 2` on the same graph. -/
theorem closure_loss_normalized_witness :
    ClosureResult.from_training_step_output (StepOutput.tensor ⟨3, true⟩) 2
      = Except.ok (ClosureResult.make (some (Tensor.divNat ⟨3, true⟩ 2)) []) :=
  (closure_loss_normalized ⟨3, true⟩ 2 (by norm_num)).1

/-- C10: `Closure.__call__` returns the `loss` field of the result — the
copy detached and cloned once at `ClosureResult` construction, never the
graph-attached `closure_loss`; it returns `None` exactly when the training
step produced no loss, and any tensor it does return is detached from the
graph. -/
theorem closure_call_returns_detached (o : StepOutput) (k : Nat) (r : ClosureResult)
    (hb hz : Bool) (h : ClosureResult.from_training_step_output o k = Except.ok r) :
    Closure.call ⟨r, hb, hz⟩ = r.loss
    ∧ (Closure.call ⟨r, hb, hz⟩ = none ↔ r.closure_loss = none)
    ∧ (r.closure_loss = none ↔ o = StepOutput.noneVal)
    ∧ (∀ t2, Closure.call ⟨r, hb, hz⟩ = some t2 → t2.attached = false) := by
  cases o with
  | tensor t =>
    simp only [ClosureResult.from_training_step_output, Except.ok.injEq] at h
    subst h
    refine ⟨rfl, by simp [Closure.call, Closure.closureRun, ClosureResult.make],
      by simp [ClosureResult.make], ?_⟩
    intro t2 ht2
    have ht3 : (⟨(t.divNat k).val, false⟩ : Tensor) = t2 := Option.some.inj ht2
    rw [← ht3]
  | noneVal =>
    simp only [ClosureResult.from_training_step_output, Except.ok.injEq] at h
    subst h
    refine ⟨rfl, by simp [Closure.call, Closure.closureRun, ClosureResult.make],
      by simp [ClosureResult.make], ?_⟩
    intro t2 ht2
    simp [Closure.call, Closure.closureRun, ClosureResult.make] at ht2
  | other =>
    simp only [ClosureResult.from_training_step_output] at h
    exact absurd h (by simp)
  | dict entries =>
    rw [ClosureResult.from_training_step_output] at h
    cases hd : dictGet entries "loss" with
    | none =>
      rw [hd] at h
      exact absurd h (by simp)
    | some t =>
      rw [hd] at h
      simp only [Except.ok.injEq] at h
      subst h
      refine ⟨rfl, by simp [Closure.call, Closure.closureRun, ClosureResult.make],
        by simp [ClosureResult.make], ?_⟩
      intro t2 ht2
      have ht3 : (⟨(t.divNat k).val, false⟩ : Tensor) = t2 := Option.some.inj ht2
      rw [← ht3]

/-- C10 witness: for a skipped batch (no loss), the closure returns
`None` to the caller. -/
theorem closure_call_returns_detached_witness :
    Closure.call ⟨ClosureResult.make none [], true, true⟩ = none :=
  (closure_call_returns_detached StepOutput.noneVal 1
    (ClosureResult.make none []) true true rfl).2.1.mpr rfl

/-- Draining the prefetch buffer tags exactly the last element. -/
theorem drainBatches_eq_tagLast {α : Type} (l : List α) :
    drainBatches l = tagLast l := by
  induction l with
  | nil => rfl
  | cons x xs ih =>
    cases xs with
    | nil => rfl
    | cons y ys => simp [drainBatches, tagLast] at ih ⊢; exact ih

/-- `tagLast` tags the head `False` whenever more elements follow. -/
theorem tagLast_cons_of_ne_nil {α : Type} (x : α) (l : List α) (h : l ≠ []) :
    tagLast (x :: l) = (x, false) :: tagLast l := by
  cases l with
  | nil => exact absurd rfl h
  | cons y ys => rfl

/-- The fetch-one-ahead loop with a nonempty buffer yields the buffer and
the remaining iterator in order, last element tagged. -/
theorem fetchLoop_eq_tagLast {α : Type} :
    ∀ (rest batches : List α), batches ≠ [] →
      fetchLoop batches rest = tagLast (batches ++ rest) := by
  intro rest
  induction rest with
  | nil =>
    intro batches hb
    cases batches with
    | nil => exact absurd rfl hb
    | cons yb bs => simp [fetchLoop, drainBatches_eq_tagLast]
  | cons x rest ih =>
    intro batches hb
    cases batches with
    | nil => exact absurd rfl hb
    | cons yb bs =>
      simp only [fetchLoop]
      rw [ih (bs ++ [x]) (by simp)]
      rw [List.cons_append]
      rw [tagLast_cons_of_ne_nil yb (bs ++ x :: rest) (by simp)]
      congr 1
      simp

/-- `_prefetching` moves the first `k` iterator elements into the buffer. -/
theorem prefetching_eq {α : Type} :
    ∀ (k : Nat) (acc xs : List α),
      prefetching k acc xs = (acc ++ xs.take k, xs.drop k) := by
  intro k
  induction k with
  | zero => intro acc xs; simp [prefetching]
  | succ k ih =>
    intro acc xs
    cases xs with
    | nil => simp [prefetching]
    | cons x r => simp [prefetching, ih]

theorem tagLast_length {α : Type} : ∀ (l : List α), (tagLast l).length = l.length := by
  intro l
  induction l with
  | nil => rfl
  | cons x xs ih =>
    cases xs with
    | nil => rfl
    | cons y ys => simp [tagLast] at ih ⊢; exact ih

theorem tagLast_map_fst {α : Type} : ∀ (l : List α), (tagLast l).map Prod.fst = l := by
  intro l
  induction l with
  | nil => rfl
  | cons x xs ih =>
    cases xs with
    | nil => rfl
    | cons y ys => simp [tagLast] at ih ⊢; exact ih

theorem tagLast_get_snd {α : Type} :
    ∀ (l : List α) (i : Nat) (h : i < (tagLast l).length),
      ((tagLast l).get ⟨i, h⟩).2 = decide (i + 1 = l.length) := by
  intro l
  induction l with
  | nil => intro i h; simp [tagLast] at h
  | cons x xs ih =>
    cases xs with
    | nil =>
      intro i h
      simp only [tagLast, List.length_singleton] at h
      have hi : i = 0 := by omega
      subst hi
      rfl
    | cons y ys =>
      intro i h
      cases i with
      | zero =>
        show false = decide (0 + 1 = (x :: y :: ys).length)
        rw [decide_eq_false (by simp)]
      | succ i =>
        have h2 : i < (tagLast (y :: ys)).length := Nat.lt_of_succ_lt_succ h
        calc ((tagLast (x :: y :: ys)).get ⟨i + 1, h⟩).2
            = ((tagLast (y :: ys)).get ⟨i, h2⟩).2 := rfl
          _ = decide (i + 1 = (y :: ys).length) := ih i h2
          _ = decide (i + 1 + 1 = (x :: y :: ys).length) := by
              rw [decide_eq_decide]
              simp only [List.length_cons]
              omega

/-- C6: iterating a `DataFetcher` with any prefetch depth `p` over a
nonempty iterable yields exactly the iterable's elements, in order, one
`(batch, is_last)` pair per element, with `is_last = True` exactly on the
final pair. -/
theorem data_fetcher_yields {α : Type} (p : Nat) (xs : List α) (hne : xs ≠ []) :
    DataFetcher.iterate p xs = tagLast xs
    ∧ (DataFetcher.iterate p xs).length = xs.length
    ∧ (DataFetcher.iterate p xs).map Prod.fst = xs
    ∧ ∀ i (h : i < (DataFetcher.iterate p xs).length),
        ((DataFetcher.iterate p xs).get ⟨i, h⟩).2 = decide (i + 1 = xs.length) := by
  have htake : xs.take (p + 1) ≠ [] := by
    cases xs with
    | nil => exact absurd rfl hne
    | cons x r => simp [List.take]
  have key : DataFetcher.iterate p xs = tagLast xs := by
    unfold DataFetcher.iterate DataFetcher.fetching_function
    rw [prefetching_eq]
    simp only [List.nil_append]
    rw [fetchLoop_eq_tagLast (xs.drop (p + 1)) (xs.take (p + 1)) htake]
    rw [List.take_append_drop]
  refine ⟨key, ?_, ?_, ?_⟩
  · rw [key]; exact tagLast_length xs
  · rw [key]; exact tagLast_map_fst xs
  · intro i h
    rw [List.get_of_eq key]
    exact tagLast_get_snd xs i _

/-- C6 witness: `prefetch_batches = 2` over a 5-element iterable yields
exactly 5 pairs with `is_last = True` only on the final yield. -/
theorem data_fetcher_yields_witness :
    DataFetcher.iterate 2 [0, 1, 2, 3, 4]
      = [(0, false), (1, false), (2, false), (3, false), (4, true)] := by
  rw [(data_fetcher_yields 2 [0, 1, 2, 3, 4] (by decide)).1]
  decide

/-- Splitting `takeWhile`/`dropWhile` at the first failing element. -/
theorem takeWhile_append_split {α : Type} (p : α → Bool) :
    ∀ (l r : List α) (x : α), (∀ c ∈ l, p c = true) → p x = false →
      (l ++ x :: r).takeWhile p = l ∧ (l ++ x :: r).dropWhile p = x :: r := by
  intro l
  induction l with
  | nil =>
    intro r x _ hx
    simp [List.takeWhile_cons, List.dropWhile_cons, hx]
  | cons a l ih =>
    intro r x hall hx
    have ha : p a = true := hall a (List.mem_cons_self a l)
    have hrest := ih r x (fun c hc => hall c (List.mem_cons_of_mem a hc)) hx
    simp [List.takeWhile_cons, List.dropWhile_cons, ha, hrest.1, hrest.2]

/-- C9: strict pins are never relaxed.  For every requirement line whose
comment (the slice from the first `'#'` on) mentions `strict`,
`_augment_requirement` with `unfreeze="all"` returns the stripped
requirement part verbatim — every version constraint intact, the upper
bound removal never runs — with the strict marker reattached (the guards
exclude only empty and directly-installed `http` requirement lines, which
carry no version constraints). -/
theorem strict_pins_never_relaxed (before after : List Char)
    (hpre : ∀ c ∈ before, c ≠ '#')
    (hstrict : containsSeq ('#' :: after) (String.toList "strict") = true)
    (hreq : pyStrip before ≠ [])
    (hhttp : (String.toList "http").isPrefixOf (pyStrip before) = false)
    (hat : containsSeq (pyStrip before) (String.toList "@http") = false) :
    _augment_requirement (before ++ '#' :: after) = pyStrip before ++ strictSuffix := by
  have hsplit := takeWhile_append_split (fun c => c != '#') before ('#' :: after).tail '#'
    (fun c hc => by simpa using hpre c hc) (by simp)
  unfold _augment_requirement
  simp only [List.tail_cons] at hsplit
  rw [hsplit.1, hsplit.2]
  simp only [List.isEmpty_cons, Bool.not_false, Bool.true_and, hstrict]
  rw [if_neg (by
    simp only [Bool.or_eq_true, not_or]
    refine ⟨⟨?_, ?_⟩, ?_⟩
    · intro hc
      cases hps : pyStrip before with
      | nil => exact absurd hps hreq
      | cons a l => rw [hps] at hc; simp at hc
    · intro hc; rw [hhttp] at hc; exact Bool.false_ne_true hc
    · intro hc; rw [hat] at hc; exact Bool.false_ne_true hc)]
  simp

/-- C9 witness: the doctest line with a strict pin is returned unchanged
by `_augment_requirement(..., unfreeze="all")`. -/
theorem strict_pins_never_relaxed_witness :
    _augment_requirement (String.toList "arrow>=1.2.0, <=1.2.2  # strict")
      = String.toList "arrow>=1.2.0, <=1.2.2  # strict" := by
  have e : String.toList "arrow>=1.2.0, <=1.2.2  # strict"
      = String.toList "arrow>=1.2.0, <=1.2.2  " ++ '#' :: String.toList " strict" := by decide
  rw [e, strict_pins_never_relaxed (String.toList "arrow>=1.2.0, <=1.2.2  ")
    (String.toList " strict") (by decide) (by decide) (by decide) (by decide) (by decide)]
  decide

end PL
